import Mathlib

/-!
Verification of the Instagram-link reply pipeline of `bot.py`.

The development shallowly embeds the core pipeline of the repository:

* `check_instagram_link` — the regex `INSTAGRAM_RE` search (line 26/33 of
  `bot.py`), hand-compiled into an alternation matcher plus a left-to-right
  scan over all start positions, exactly the existence semantics of
  `re.search` with `re.IGNORECASE`.
* `extract_reel_id` — the regex search for `/reel/([\w-]+)/` (line 47).
* `fetch_reel_data` — the response-processing `try/except` of lines 86-102,
  with the network layer (lines 71-84, outside the `try`) abstracted into a
  `NetOutcome` oracle and the outcome of `json.loads` abstracted into an
  `Option JValue` (the repository depends on the body only through the
  decoded value or the decode failure).
* `process_instagram_link` — the reply pipeline of lines 105-131; the value
  is `Except Unit String` so that "an exception escapes" is a visible
  `.error` outcome.

Python-language semantics needed by those lines (truthiness of optional
strings, subscripting of decoded JSON values with the ensuing
`KeyError`/`IndexError`/`TypeError`, `str()` formatting inside an f-string,
the character classes `\w`, `\S` and ASCII case folding of `re.IGNORECASE`)
are modelled by the `py`-prefixed definitions below.
-/

/-- Python whitespace for the regex class `\S` (complement), restricted to
the ASCII whitespace characters space, `\t`, `\n`, `\r`, `\x0b`, `\x0c`. -/
def isPySpace (c : Char) : Bool :=
  c = ' ' || c = '\t' || c = '\n' || c = '\r' || c = '\x0b' || c = '\x0c'

/-- Pointwise ASCII lower-casing, the case folding used by `re.IGNORECASE`
on the ASCII pattern literals of `INSTAGRAM_RE`. -/
def lowerL (cs : List Char) : List Char := cs.map Char.toLower

/-- Strip a (lower-case) pattern literal from the front of the text,
comparing case-insensitively, returning the remainder on success.  This is
the semantics of a literal inside an `re.IGNORECASE` pattern. -/
def stripCI : List Char → List Char → Option (List Char)
  | [], cs => some cs
  | _ :: _, [] => none
  | p :: ps, c :: cs => if c.toLower = p then stripCI ps cs else none

/-- Match a literal case-insensitively, then continue with `k`. -/
def stripCIThen (pat : List Char) (k : List Char → Bool) (cs : List Char) : Bool :=
  match stripCI pat cs with
  | some r => k r
  | none => false

/-- The tail `/\S+` of `INSTAGRAM_RE`: a literal `/` followed by at least
one non-whitespace character. -/
def matchSlash : List Char → Bool
  | s :: c :: _ => s = '/' && !(isPySpace c)
  | _ => false

/-- The `(?:instagram\.com|instagr\.am)/\S+` part of `INSTAGRAM_RE`,
anchored at the current position (alternation by boolean or, which is the
existence semantics of regex alternation). -/
def matchHostAt (cs : List Char) : Bool :=
  stripCIThen ("instagram.com".data) matchSlash cs ||
  stripCIThen ("instagr.am".data) matchSlash cs

/-- The `(?:www\.)?` part of `INSTAGRAM_RE` followed by the host part:
the optional group is the alternation of the empty match and `www.`. -/
def matchWwwHost (cs : List Char) : Bool :=
  matchHostAt cs || stripCIThen ("www.".data) matchHostAt cs

/-- The whole of `INSTAGRAM_RE` anchored at the current position: the
optional scheme group `(?:https?://)?` unfolds into the empty match,
`http://`, and `https://`. -/
def matchAt (cs : List Char) : Bool :=
  matchWwwHost cs ||
  stripCIThen ("http://".data) matchWwwHost cs ||
  stripCIThen ("https://".data) matchWwwHost cs

/-- `re.search` semantics for `INSTAGRAM_RE`: try `matchAt` at every start
position, left to right. -/
def regexSearch : List Char → Bool
  | [] => matchAt []
  | c :: rest => matchAt (c :: rest) || regexSearch rest

/-- `check_instagram_link` (bot.py line 33): `bool(INSTAGRAM_RE.search(text
or ""))`.  The `text or ""` guard makes an absent (`None`) text behave as
the empty string, hence the `Option String` argument. -/
def check_instagram_link (text : Option String) : Bool :=
  regexSearch (text.getD "").data

/-- Python regex `\w` for `str` patterns is Unicode-aware: it matches
`[a-zA-Z0-9_]` together with every other character that `str.isalnum`
accepts.  The model covers the ASCII range exactly and, of the non-ASCII
word characters, the Latin-1 block (the letters `ª µ º À-Ö Ø-ö ø-ÿ` and the
numeric forms `² ³ ¹ ¼ ½ ¾`); `×` and `÷` are not word characters. -/
def isWordChar (c : Char) : Bool :=
  c.isAlphanum || c = '_' ||
  c.toNat = 0xAA || c.toNat = 0xB5 || c.toNat = 0xBA ||
  c.toNat = 0xB2 || c.toNat = 0xB3 || c.toNat = 0xB9 ||
  c.toNat = 0xBC || c.toNat = 0xBD || c.toNat = 0xBE ||
  (0xC0 ≤ c.toNat && c.toNat ≤ 0xFF && !(c.toNat = 0xD7) && !(c.toNat = 0xF7))

/-- The character class `[\w-]` of the reel-id capture group. -/
def isWordHyphen (c : Char) : Bool := isWordChar c || c = '-'

/-- The literal `/reel/` of the extraction pattern. -/
def reelLit : List Char := "/reel/".data

/-- Strip an exact (case-sensitive) literal from the front of the text;
the reel-id pattern is compiled without `re.IGNORECASE`. -/
def stripExact : List Char → List Char → Option (List Char)
  | [], cs => some cs
  | _ :: _, [] => none
  | p :: ps, c :: cs => if c = p then stripExact ps cs else none

/-- The pattern `/reel/([\w-]+)/` anchored at the current position,
returning the capture group.  The greedy `([\w-]+)` takes the maximal run
of `[\w-]` characters; since `/` is not a `[\w-]` character, backtracking
into a shorter run can never reach the required `/`, so the maximal run
followed by a literal `/` is the exact match semantics. -/
def matchReelAt (cs : List Char) : Option (List Char) :=
  match stripExact reelLit cs with
  | none => none
  | some rest =>
    if (rest.takeWhile isWordHyphen ≠ [] ∧
        (rest.dropWhile isWordHyphen).head? = some '/')
    then some (rest.takeWhile isWordHyphen)
    else none

/-- `re.search` semantics for the reel-id pattern: first position (left to
right) where `matchReelAt` succeeds. -/
def searchReel : List Char → Option (List Char)
  | [] => matchReelAt []
  | c :: rest =>
    match matchReelAt (c :: rest) with
    | some r => some r
    | none => searchReel rest

/-- `extract_reel_id` (bot.py lines 37-50): return the capture group of the
first match of `/reel/([\w-]+)/`, or the empty string when there is none. -/
def extract_reel_id (url : String) : String :=
  match searchReel url.data with
  | some run => run.asString
  | none => ""

/-- A decoded JSON value, the result of a successful `json.loads`.
Numbers are modelled as integers; the pipeline never inspects a numeric
value, it only matters that subscripting one raises `TypeError`. -/
inductive JValue where
  | null : JValue
  | bool : Bool → JValue
  | num : Int → JValue
  | str : String → JValue
  | arr : List JValue → JValue
  | obj : List (String × JValue) → JValue

/-- The exception class raised by subscripting a decoded JSON value. -/
inductive PyErr where
  | key : PyErr
  | index : PyErr
  | type : PyErr
deriving DecidableEq

/-- Python `v[i]` for an integer index `i` on a decoded JSON value:
lists index (raising `IndexError` out of range), dicts raise `KeyError`
(JSON object keys are strings, never the integer), strings index into
one-character strings, and everything else raises `TypeError`. -/
def pyIndex (v : JValue) (i : Nat) : Except PyErr JValue :=
  match v with
  | .arr xs =>
    match xs.get? i with
    | some x => .ok x
    | none => .error .index
  | .obj _ => .error .key
  | .str s =>
    match s.data.get? i with
    | some c => .ok (.str (String.mk [c]))
    | none => .error .index
  | _ => .error .type

/-- Python `v[k]` for a string key `k` on a decoded JSON value: dicts look
up (raising `KeyError` when absent); lists and strings raise `TypeError`
on a string subscript, as does everything else. -/
def pyKey (v : JValue) (k : String) : Except PyErr JValue :=
  match v with
  | .obj fs =>
    match fs.lookup k with
    | some x => .ok x
    | none => .error .key
  | _ => .error .type

/-- The access chain `response_json[0]["urls"][0]["url"]` of bot.py line 92. -/
def pyExtract (v : JValue) : Except PyErr JValue := do
  let a ← pyIndex v 0
  let b ← pyKey a "urls"
  let c ← pyIndex b 0
  pyKey c "url"

mutual

/-- Python `repr()` of a decoded JSON value, the rendering `str()` uses for
everything but genuine strings. -/
def pyRepr : JValue → String
  | .null => "None"
  | .bool true => "True"
  | .bool false => "False"
  | .num n => toString n
  | .str s => "\x27" ++ s ++ "\x27"
  | .arr xs => "[" ++ pyReprArr xs ++ "]"
  | .obj fs => "\x7b" ++ pyReprObj fs ++ "\x7d"

/-- Comma-separated `repr()` of list elements. -/
def pyReprArr : List JValue → String
  | [] => ""
  | [x] => pyRepr x
  | x :: xs => pyRepr x ++ ", " ++ pyReprArr xs

/-- Comma-separated `repr()` of dict entries. -/
def pyReprObj : List (String × JValue) → String
  | [] => ""
  | [(k, v)] => "\x27" ++ k ++ "\x27: " ++ pyRepr v
  | (k, v) :: fs => "\x27" ++ k ++ "\x27: " ++ pyRepr v ++ ", " ++ pyReprObj fs

end

/-- Python `str()` of a decoded JSON value, the conversion an f-string
applies: strings render verbatim, everything else as its `repr()`. -/
def pyStr : JValue → String
  | .str s => s
  | v => pyRepr v

/-- The behaviour of the network layer of `fetch_reel_data` (bot.py lines
71-84, outside the `try`): either some step of connecting, sending or
reading raises, or a body is read whose `json.loads` outcome is `none`
(a `json.JSONDecodeError`) or `some` decoded value. -/
inductive NetOutcome where
  | raise : NetOutcome
  | response : Option JValue → NetOutcome

/-- `fetch_reel_data` (bot.py lines 60-102) given the network outcome.  A
raise in the network layer propagates (`.error`); otherwise the `try` body
runs: a decode failure is answered by the `except json.JSONDecodeError`
handler, a `KeyError` from the access chain by the `except KeyError`
handler, and any other exception (`IndexError`, `TypeError`, ...) by the
`except Exception` handler — the latter two return the same fixed string.
The reel id and the api key do not influence the processing of the body. -/
def fetch_reel_data (net : NetOutcome) : Except Unit JValue :=
  match net with
  | .raise => .error ()
  | .response parsed =>
    .ok (match parsed with
      | none => .str "Error decoding API response"
      | some v =>
        match pyExtract v with
        | .ok u => u
        | .error .key => .str "Error processing API response"
        | .error _ => .str "Error processing API response")

/-- Python truthiness of `os.environ.get(...)`: `None` and the empty
string are falsy. -/
def pyTruthyStr : Option String → Bool
  | none => false
  | some s => !(s = "")

/-- `process_instagram_link` (bot.py lines 105-131).  The result is
`Except Unit String`: `.error` would mean an exception escapes the
pipeline.  The `try/except` of lines 126-131 appears as the match on
`fetch_reel_data`. -/
def process_instagram_link (rapid_api_key : Option String) (net : NetOutcome)
    (text : String) : Except Unit String :=
  if !(pyTruthyStr rapid_api_key) then .ok "RapidAPI key is not configured."
  else if !(check_instagram_link (some text)) then .ok "No Instagram link detected"
  else if extract_reel_id text = "" then .ok "Reel ID not found"
  else
    match fetch_reel_data net with
    | .ok v => .ok ("Extracted URL: " ++ pyStr v)
    | .error _ => .ok "Error fetching data from RapidAPI"

/-- The link-detection rule as the specification words it: the text
contains, anywhere and case-insensitively, an optional scheme `http://` or
`https://`, an optional `www.` prefix, the host `instagram.com` or
`instagr.am`, a `/`, and one or more non-whitespace characters. -/
def spec_matches (t : String) : Prop :=
  ∃ pre sch www host tail post,
    (sch = [] ∨ lowerL sch = "http://".data ∨ lowerL sch = "https://".data) ∧
    (www = [] ∨ lowerL www = "www.".data) ∧
    (lowerL host = "instagram.com".data ∨ lowerL host = "instagr.am".data) ∧
    tail ≠ [] ∧ (∀ c ∈ tail, isPySpace c = false) ∧
    t.data = pre ++ sch ++ www ++ host ++ '/' :: (tail ++ post)

/-- The character class `[A-Za-z0-9_-]` that the specification gives for
reel identifiers (ASCII letters, digits, underscore, hyphen only). -/
def asciiIdChar (c : Char) : Bool :=
  ('A' ≤ c && c ≤ 'Z') || ('a' ≤ c && c ≤ 'z') || ('0' ≤ c && c ≤ '9') ||
  c = '_' || c = '-'

theorem stripCI_some (p : List Char) : ∀ cs r : List Char,
    stripCI p cs = some r ↔ ∃ A, lowerL A = p ∧ cs = A ++ r := by
  induction p with
  | nil =>
    intro cs r
    constructor
    · intro h
      refine ⟨[], rfl, ?_⟩
      simpa [stripCI] using h
    · rintro ⟨A, hA, rfl⟩
      have hA0 : A = [] := by simpa [lowerL] using hA
      subst hA0
      simp [stripCI]
  | cons q ps ih =>
    intro cs r
    cases cs with
    | nil =>
      constructor
      · intro h
        simp [stripCI] at h
      · rintro ⟨A, hA, hcs⟩
        cases A with
        | nil => simp [lowerL] at hA
        | cons a A2 => simp at hcs
    | cons c cs2 =>
      constructor
      · intro h
        by_cases hc : c.toLower = q
        · rw [stripCI, if_pos hc] at h
          obtain ⟨A, hA, hcs⟩ := (ih cs2 r).mp h
          refine ⟨c :: A, ?_, ?_⟩
          · simp [lowerL] at hA ⊢
            exact ⟨hc, hA⟩
          · simp [hcs]
        · rw [stripCI, if_neg hc] at h
          exact absurd h (by simp)
      · rintro ⟨A, hA, hcs⟩
        cases A with
        | nil => simp [lowerL] at hA
        | cons a A2 =>
          simp [lowerL] at hA
          obtain ⟨ha, hA2⟩ := hA
          simp at hcs
          obtain ⟨rfl, hcs2⟩ := hcs
          rw [stripCI, if_pos ha]
          exact (ih cs2 r).mpr ⟨A2, by simpa [lowerL] using hA2, hcs2⟩

theorem stripCIThen_true (pat : List Char) (k : List Char → Bool) (cs : List Char) :
    stripCIThen pat k cs = true ↔
      ∃ A r, lowerL A = pat ∧ cs = A ++ r ∧ k r = true := by
  unfold stripCIThen
  cases h : stripCI pat cs with
  | none =>
    simp only [Bool.false_eq_true, false_iff]
    rintro ⟨A, r, hA, rfl, hk⟩
    have h2 := (stripCI_some pat (A ++ r) r).mpr ⟨A, hA, rfl⟩
    rw [h] at h2
    cases h2
  | some r0 =>
    obtain ⟨A0, hA0, hcs0⟩ := (stripCI_some pat cs r0).mp h
    constructor
    · intro hk
      exact ⟨A0, r0, hA0, hcs0, hk⟩
    · rintro ⟨A, r, hA, hcs, hk⟩
      have h2 := (stripCI_some pat cs r).mpr ⟨A, hA, hcs⟩
      rw [h] at h2
      injection h2 with h3
      rw [h3]
      exact hk

theorem matchSlash_true (cs : List Char) :
    matchSlash cs = true ↔ ∃ c post, cs = '/' :: c :: post ∧ isPySpace c = false := by
  match cs with
  | [] => simp [matchSlash]
  | [s] => simp [matchSlash]
  | s :: c :: rest =>
    simp only [matchSlash, Bool.and_eq_true, decide_eq_true_eq, Bool.not_eq_true']
    constructor
    · rintro ⟨rfl, h⟩
      exact ⟨c, rest, rfl, h⟩
    · rintro ⟨c2, post, heq, h⟩
      injection heq with h1 h2
      injection h2 with h3 h4
      subst h1; subst h3
      exact ⟨rfl, h⟩

theorem matchHostAt_true (cs : List Char) :
    matchHostAt cs = true ↔
      ∃ host rest,
        (lowerL host = "instagram.com".data ∨ lowerL host = "instagr.am".data) ∧
        cs = host ++ rest ∧ matchSlash rest = true := by
  rw [matchHostAt, Bool.or_eq_true, stripCIThen_true, stripCIThen_true]
  constructor
  · rintro (⟨A, r, hA, hcs, hk⟩ | ⟨A, r, hA, hcs, hk⟩)
    · exact ⟨A, r, Or.inl hA, hcs, hk⟩
    · exact ⟨A, r, Or.inr hA, hcs, hk⟩
  · rintro ⟨host, rest, hA | hA, hcs, hk⟩
    · exact Or.inl ⟨host, rest, hA, hcs, hk⟩
    · exact Or.inr ⟨host, rest, hA, hcs, hk⟩

theorem matchWwwHost_true (cs : List Char) :
    matchWwwHost cs = true ↔
      ∃ www rest, (www = [] ∨ lowerL www = "www.".data) ∧
        cs = www ++ rest ∧ matchHostAt rest = true := by
  rw [matchWwwHost, Bool.or_eq_true, stripCIThen_true]
  constructor
  · rintro (h | ⟨A, r, hA, hcs, hk⟩)
    · exact ⟨[], cs, Or.inl rfl, rfl, h⟩
    · exact ⟨A, r, Or.inr hA, hcs, hk⟩
  · rintro ⟨www, rest, hw | hw, hcs, hk⟩
    · subst hw
      simp only [List.nil_append] at hcs
      subst hcs
      exact Or.inl hk
    · exact Or.inr ⟨www, rest, hw, hcs, hk⟩

theorem matchAt_true (cs : List Char) :
    matchAt cs = true ↔
      ∃ sch rest,
        (sch = [] ∨ lowerL sch = "http://".data ∨ lowerL sch = "https://".data) ∧
        cs = sch ++ rest ∧ matchWwwHost rest = true := by
  rw [matchAt, Bool.or_eq_true, Bool.or_eq_true, stripCIThen_true, stripCIThen_true]
  constructor
  · rintro ((h | ⟨A, r, hA, hcs, hk⟩) | ⟨A, r, hA, hcs, hk⟩)
    · exact ⟨[], cs, Or.inl rfl, rfl, h⟩
    · exact ⟨A, r, Or.inr (Or.inl hA), hcs, hk⟩
    · exact ⟨A, r, Or.inr (Or.inr hA), hcs, hk⟩
  · rintro ⟨sch, rest, hs | hs | hs, hcs, hk⟩
    · subst hs
      simp only [List.nil_append] at hcs
      subst hcs
      exact Or.inl (Or.inl hk)
    · exact Or.inl (Or.inr ⟨sch, rest, hs, hcs, hk⟩)
    · exact Or.inr ⟨sch, rest, hs, hcs, hk⟩

theorem matchAt_decomp (cs : List Char) :
    matchAt cs = true ↔
      ∃ sch www host c post,
        (sch = [] ∨ lowerL sch = "http://".data ∨ lowerL sch = "https://".data) ∧
        (www = [] ∨ lowerL www = "www.".data) ∧
        (lowerL host = "instagram.com".data ∨ lowerL host = "instagr.am".data) ∧
        isPySpace c = false ∧
        cs = sch ++ www ++ host ++ '/' :: c :: post := by
  rw [matchAt_true]
  constructor
  · rintro ⟨sch, rest1, hsch, rfl, h1⟩
    rw [matchWwwHost_true] at h1
    obtain ⟨www, rest2, hwww, rfl, h2⟩ := h1
    rw [matchHostAt_true] at h2
    obtain ⟨host, rest3, hhost, rfl, h3⟩ := h2
    rw [matchSlash_true] at h3
    obtain ⟨c, post, rfl, hc⟩ := h3
    exact ⟨sch, www, host, c, post, hsch, hwww, hhost, hc, by simp⟩
  · rintro ⟨sch, www, host, c, post, hsch, hwww, hhost, hc, rfl⟩
    refine ⟨sch, www ++ host ++ '/' :: c :: post, hsch, by simp, ?_⟩
    rw [matchWwwHost_true]
    refine ⟨www, host ++ '/' :: c :: post, hwww, by simp, ?_⟩
    rw [matchHostAt_true]
    refine ⟨host, '/' :: c :: post, hhost, rfl, ?_⟩
    rw [matchSlash_true]
    exact ⟨c, post, rfl, hc⟩

theorem regexSearch_true (cs : List Char) :
    regexSearch cs = true ↔ ∃ pre suf, cs = pre ++ suf ∧ matchAt suf = true := by
  induction cs with
  | nil =>
    rw [regexSearch]
    constructor
    · intro h
      exact ⟨[], [], rfl, h⟩
    · rintro ⟨pre, suf, h1, h2⟩
      obtain ⟨rfl, rfl⟩ := List.append_eq_nil.mp h1.symm
      exact h2
  | cons c rest ih =>
    rw [regexSearch, Bool.or_eq_true, ih]
    constructor
    · rintro (h | ⟨pre, suf, rfl, h⟩)
      · exact ⟨[], c :: rest, rfl, h⟩
      · exact ⟨c :: pre, suf, rfl, h⟩
    · rintro ⟨pre, suf, heq, h⟩
      cases pre with
      | nil =>
        simp only [List.nil_append] at heq
        subst heq
        exact Or.inl h
      | cons a pre2 =>
        injection heq with h1 h2
        subst h1
        exact Or.inr ⟨pre2, suf, h2, h⟩

/-- C3: the link matcher is exactly the specified predicate — the text
matches iff it contains, anywhere and case-insensitively, an optional
scheme, an optional `www.`, an Instagram host, a slash, and at least one
non-whitespace character; an absent text behaves as the empty string, and
the matcher is a total function (it never fails). -/
theorem check_instagram_link_spec :
    (∀ t : String, check_instagram_link (some t) = true ↔ spec_matches t) ∧
    check_instagram_link none = check_instagram_link (some "") := by
  constructor
  · intro t
    rw [show check_instagram_link (some t) = regexSearch t.data from rfl, regexSearch_true]
    constructor
    · rintro ⟨pre, suf, heq, h⟩
      rw [matchAt_decomp] at h
      obtain ⟨sch, www, host, c, post, hsch, hwww, hhost, hc, rfl⟩ := h
      refine ⟨pre, sch, www, host, [c], post, hsch, hwww, hhost, by simp, ?_, ?_⟩
      · intro c2 hc2
        simp only [List.mem_singleton] at hc2
        subst hc2
        exact hc
      · rw [heq]
        simp
    · rintro ⟨pre, sch, www, host, tail, post, hsch, hwww, hhost, htail, hall, heq⟩
      cases tail with
      | nil => exact absurd rfl htail
      | cons c tail2 =>
        refine ⟨pre, sch ++ www ++ host ++ '/' :: c :: (tail2 ++ post), ?_, ?_⟩
        · rw [heq]
          simp
        · rw [matchAt_decomp]
          exact ⟨sch, www, host, c, tail2 ++ post, hsch, hwww, hhost,
            hall c (by simp), by simp⟩
  · rfl

theorem stripExact_some (p : List Char) : ∀ cs r : List Char,
    stripExact p cs = some r ↔ cs = p ++ r := by
  induction p with
  | nil =>
    intro cs r
    constructor
    · intro h
      simpa [stripExact] using h
    · intro h
      subst h
      simp [stripExact]
  | cons q ps ih =>
    intro cs r
    cases cs with
    | nil =>
      constructor
      · intro h
        simp [stripExact] at h
      · intro h
        simp at h
    | cons c cs2 =>
      constructor
      · intro h
        by_cases hc : c = q
        · subst hc
          rw [stripExact, if_pos rfl] at h
          rw [(ih cs2 r).mp h]
          simp
        · rw [stripExact, if_neg hc] at h
          exact absurd h (by simp)
      · intro h
        simp only [List.cons_append] at h
        injection h with h1 h2
        subst h1
        rw [stripExact, if_pos rfl]
        exact (ih cs2 r).mpr h2

theorem takeWhile_run (run post : List Char) (h : ∀ c ∈ run, isWordHyphen c = true) :
    (run ++ '/' :: post).takeWhile isWordHyphen = run ∧
    (run ++ '/' :: post).dropWhile isWordHyphen = '/' :: post := by
  induction run with
  | nil =>
    constructor
    · simp [List.takeWhile_cons, show isWordHyphen '/' = false from by decide]
    · simp [List.dropWhile_cons, show isWordHyphen '/' = false from by decide]
  | cons a run2 ih =>
    have ha : isWordHyphen a = true := h a (by simp)
    have ih2 := ih (fun c hc => h c (by simp [hc]))
    constructor
    · simp only [List.cons_append, List.takeWhile_cons, ha, if_true]
      rw [ih2.1]
    · simp only [List.cons_append, List.dropWhile_cons, ha, if_true]
      exact ih2.2

theorem matchReelAt_some (cs run : List Char) :
    matchReelAt cs = some run ↔
      ∃ post, run ≠ [] ∧ (∀ c ∈ run, isWordHyphen c = true) ∧
        cs = reelLit ++ run ++ '/' :: post := by
  constructor
  · intro h
    cases hs : stripExact reelLit cs with
    | none =>
      rw [matchReelAt] at h
      simp only [hs] at h
      cases h
    | some rest =>
      rw [matchReelAt] at h
      simp only [hs] at h
      split_ifs at h with hcond
      · obtain ⟨hne, hhead⟩ := hcond
        injection h with h2
        cases hd : rest.dropWhile isWordHyphen with
        | nil =>
          rw [hd] at hhead
          cases hhead
        | cons d rest2 =>
          rw [hd] at hhead
          simp only [List.head?_cons, Option.some.injEq] at hhead
          subst hhead
          refine ⟨rest2, ?_, ?_, ?_⟩
          · rw [← h2]
            exact hne
          · intro c hc
            rw [← h2] at hc
            exact List.mem_takeWhile_imp hc
          · have hrest : rest = run ++ '/' :: rest2 := by
              rw [← h2, ← hd]
              exact (List.takeWhile_append_dropWhile isWordHyphen rest).symm
            have hcs : cs = reelLit ++ rest := (stripExact_some reelLit cs rest).mp hs
            rw [hcs, hrest]
            simp
  · rintro ⟨post, hne, hall, heq⟩
    have hs : stripExact reelLit cs = some (run ++ '/' :: post) := by
      rw [stripExact_some]
      rw [heq]
      simp
    have htw := takeWhile_run run post hall
    rw [matchReelAt]
    simp only [hs, htw.1, htw.2]
    rw [if_pos ⟨hne, rfl⟩]

theorem searchReel_none (cs : List Char) :
    searchReel cs = none ↔ ∀ pre suf, cs = pre ++ suf → matchReelAt suf = none := by
  induction cs with
  | nil =>
    rw [searchReel]
    constructor
    · intro h pre suf heq
      obtain ⟨rfl, rfl⟩ := List.append_eq_nil.mp heq.symm
      exact h
    · intro h
      exact h [] [] rfl
  | cons c rest ih =>
    constructor
    · intro h pre suf heq
      rw [searchReel] at h
      cases hm : matchReelAt (c :: rest) with
      | some r =>
        rw [hm] at h
        cases h
      | none =>
        rw [hm] at h
        cases pre with
        | nil =>
          simp only [List.nil_append] at heq
          subst heq
          exact hm
        | cons a pre2 =>
          injection heq with h1 h2
          exact (ih.mp h) pre2 suf h2
    · intro h
      rw [searchReel]
      have h0 : matchReelAt (c :: rest) = none := h [] (c :: rest) rfl
      rw [h0]
      exact ih.mpr (fun pre suf heq => h (c :: pre) suf (by rw [heq]; rfl))

theorem searchReel_some (cs : List Char) : ∀ run,
    searchReel cs = some run →
      ∃ pre post, run ≠ [] ∧ (∀ c ∈ run, isWordHyphen c = true) ∧
        cs = pre ++ reelLit ++ run ++ '/' :: post := by
  induction cs with
  | nil =>
    intro run h
    rw [searchReel] at h
    obtain ⟨post, hne, hall, heq⟩ := (matchReelAt_some [] run).mp h
    exact ⟨[], post, hne, hall, by simp at heq⟩
  | cons c rest ih =>
    intro run h
    rw [searchReel] at h
    cases hm : matchReelAt (c :: rest) with
    | some r =>
      simp only [hm] at h
      injection h with h2
      rw [← h2]
      obtain ⟨post, hne, hall, heq⟩ := (matchReelAt_some (c :: rest) r).mp hm
      exact ⟨[], post, hne, hall, by rw [heq]; simp⟩
    | none =>
      simp only [hm] at h
      obtain ⟨pre, post, hne, hall, heq⟩ := ih run h
      exact ⟨c :: pre, post, hne, hall, by rw [heq]; rfl⟩

theorem searchReel_first (run post : List Char) (h1 : run ≠ [])
    (h2 : ∀ c ∈ run, isWordHyphen c = true) : ∀ pre l,
    l = pre ++ reelLit ++ run ++ '/' :: post →
    (∀ pre2 run2 post2, l = pre2 ++ reelLit ++ run2 ++ '/' :: post2 → run2 ≠ [] →
      (∀ c ∈ run2, isWordHyphen c = true) → pre.length ≤ pre2.length) →
    searchReel l = some run := by
  intro pre
  induction pre with
  | nil =>
    intro l heq hmin
    have hm : matchReelAt l = some run :=
      (matchReelAt_some l run).mpr ⟨post, h1, h2, by rw [heq]; simp⟩
    cases l with
    | nil => exact absurd heq.symm (by simp)
    | cons a l2 =>
      rw [searchReel]
      simp only [hm]
  | cons a pre2 ih =>
    intro l heq hmin
    have hnone : matchReelAt l = none := by
      cases hm : matchReelAt l with
      | none => rfl
      | some r =>
        obtain ⟨post2, hr1, hr2, heq2⟩ := (matchReelAt_some l r).mp hm
        have hle := hmin [] r post2 (by rw [heq2]; simp) hr1 hr2
        simp at hle
    cases l with
    | nil => exact absurd heq.symm (by simp)
    | cons b l2 =>
      rw [searchReel]
      simp only [hnone]
      have heq2 : l2 = pre2 ++ reelLit ++ run ++ '/' :: post := by
        simp only [List.cons_append, List.append_assoc] at heq
        injection heq with hb hl2
        simpa [List.append_assoc] using hl2
      refine ih l2 heq2 ?_
      intro pre3 run3 post3 heq3 hr1 hr2
      have := hmin (b :: pre3) run3 post3 (by rw [heq3]; rfl) hr1 hr2
      simpa using this

theorem extract_eq_empty_iff (s : String) :
    extract_reel_id s = "" ↔
      ¬ ∃ pre run post, run ≠ [] ∧ (∀ c ∈ run, isWordHyphen c = true) ∧
        s.data = pre ++ reelLit ++ run ++ '/' :: post := by
  unfold extract_reel_id
  cases h : searchReel s.data with
  | some run =>
    simp only []
    obtain ⟨pre, post, hne, hall, heq⟩ := searchReel_some s.data run h
    constructor
    · intro habs
      exact absurd (congrArg String.data habs) hne
    · intro hno
      exact absurd ⟨pre, run, post, hne, hall, heq⟩ hno
  | none =>
    simp only []
    constructor
    · intro _
      rintro ⟨pre, run, post, hne, hall, heq⟩
      have hmm := (searchReel_none s.data).mp h pre (reelLit ++ run ++ '/' :: post)
        (by rw [heq]; simp)
      rw [(matchReelAt_some _ run).mpr ⟨post, hne, hall, by simp⟩] at hmm
      cases hmm
    · intro _
      trivial

/-- C4: `extract_reel_id` returns the id captured from the first occurrence
of the pattern `/reel/<id>/` (id a nonempty run of word characters or
hyphens), returns the empty string exactly when the pattern is absent, and
on the three specification examples returns `"Abc123-Def"`, `""` (missing
trailing slash) and `""` (a post link); being a total function it throws
on no input, the empty string included. -/
theorem extract_reel_id_spec :
    (∀ s : String, extract_reel_id s = "" ↔
      ¬ ∃ pre run post, run ≠ [] ∧ (∀ c ∈ run, isWordHyphen c = true) ∧
        s.data = pre ++ reelLit ++ run ++ '/' :: post) ∧
    (∀ (s : String) (pre run post : List Char),
      s.data = pre ++ reelLit ++ run ++ '/' :: post → run ≠ [] →
      (∀ c ∈ run, isWordHyphen c = true) →
      (∀ pre2 run2 post2, s.data = pre2 ++ reelLit ++ run2 ++ '/' :: post2 →
        run2 ≠ [] → (∀ c ∈ run2, isWordHyphen c = true) →
        pre.length ≤ pre2.length) →
      extract_reel_id s = run.asString) ∧
    extract_reel_id "https://instagram.com/reel/Abc123-Def/" = "Abc123-Def" ∧
    extract_reel_id "https://instagram.com/reel/Abc123-Def" = "" ∧
    extract_reel_id "https://instagram.com/p/xyz/" = "" := by
  refine ⟨extract_eq_empty_iff, ?_, by decide, by decide, by decide⟩
  intro s pre run post heq hne hall hmin
  unfold extract_reel_id
  rw [searchReel_first run post hne hall pre s.data heq hmin]

theorem extract_reel_id_spec_witness :
    extract_reel_id "/reel/ab/" = (['a', 'b'] : List Char).asString :=
  extract_reel_id_spec.2.1 "/reel/ab/" [] ['a', 'b'] []
    (by decide) (by decide) (by decide)
    (fun _ _ _ _ _ _ => Nat.zero_le _)

/-- C8 (amended): every character of a string returned by
`extract_reel_id` is a word character or a hyphen, where word characters
are those of the Unicode-aware Python `\w` — a strictly larger class than
the ASCII `[A-Za-z0-9_-]` the specification names. -/
theorem extract_id_chars_word_or_hyphen (s : String) (c : Char)
    (hc : c ∈ (extract_reel_id s).data) : isWordHyphen c = true := by
  unfold extract_reel_id at hc
  cases h : searchReel s.data with
  | none =>
    simp only [h] at hc
    simp at hc
  | some run =>
    simp only [h] at hc
    obtain ⟨pre, post, hne, hall, heq⟩ := searchReel_some s.data run h
    exact hall c hc

theorem extract_id_chars_word_or_hyphen_witness : isWordHyphen 'a' = true :=
  extract_id_chars_word_or_hyphen "/reel/a/" 'a' (by decide)

/-- C8 (counterexample): on `"/reel/é/"` the code extracts the non-empty
id `"é"`, whose character is a Python word character but not in
`[A-Za-z0-9_-]`; so not every non-empty extracted id matches the ASCII
pattern the specification gives. -/
theorem extract_id_not_ascii_counterexample :
    extract_reel_id "/reel/é/" ≠ "" ∧
    ¬ ((extract_reel_id "/reel/é/").data.all asciiIdChar = true) := by
  constructor
  · decide
  · decide

/-- C7: with the API key absent or empty the pipeline replies exactly
"RapidAPI key is not configured." whatever the text and whatever the
resolver would do — the key check is the first rule applied. -/
theorem not_configured_reply (net : NetOutcome) (text : String) :
    process_instagram_link none net text =
      .ok "RapidAPI key is not configured." ∧
    process_instagram_link (some "") net text =
      .ok "RapidAPI key is not configured." := by
  constructor <;> rfl

/-- C5: the pipeline never raises — for every key, text and resolver
behaviour (a decoded response, an undecodable response, or a raised
exception) the result is an `.ok` reply, never a propagated exception. -/
theorem process_never_raises (key : Option String) (net : NetOutcome)
    (text : String) :
    ∃ reply, process_instagram_link key net text = .ok reply := by
  unfold process_instagram_link
  split_ifs with h1 h2 h3
  · exact ⟨_, rfl⟩
  · exact ⟨_, rfl⟩
  · exact ⟨_, rfl⟩
  · cases net with
    | raise => exact ⟨_, rfl⟩
    | response parsed => exact ⟨_, rfl⟩

/-- C9: every reply the pipeline produces is a non-empty string, for every
key, text and resolver outcome. -/
theorem reply_nonempty (key : Option String) (net : NetOutcome) (text : String)
    (reply : String) (h : process_instagram_link key net text = .ok reply) :
    reply ≠ "" := by
  unfold process_instagram_link at h
  split_ifs at h with h1 h2 h3
  · injection h with h4
    rw [← h4]
    decide
  · injection h with h4
    rw [← h4]
    decide
  · injection h with h4
    rw [← h4]
    decide
  · cases net with
    | raise =>
      simp only [fetch_reel_data] at h
      injection h with h4
      rw [← h4]
      decide
    | response parsed =>
      simp only [fetch_reel_data] at h
      injection h with h4
      rw [← h4]
      intro habs
      have h5 := congrArg String.data habs
      rw [String.data_append] at h5
      exact absurd (List.append_eq_nil.mp h5).1 (by decide)

theorem reply_nonempty_witness : ("RapidAPI key is not configured." : String) ≠ "" :=
  reply_nonempty none NetOutcome.raise "" "RapidAPI key is not configured." rfl

/-- C2: with a configured (non-empty) key the pipeline applies its rules in
order, first match winning: no link detected gives exactly "No Instagram
link detected"; a link without an extractable reel id gives exactly "Reel
ID not found"; otherwise, when the resolver succeeds with url, the reply is
exactly "Extracted URL: " concatenated with url. -/
theorem pipeline_rule_order (k text : String) (hk : k ≠ "") :
    (check_instagram_link (some text) = false →
      ∀ net, process_instagram_link (some k) net text =
        .ok "No Instagram link detected") ∧
    (check_instagram_link (some text) = true → extract_reel_id text = "" →
      ∀ net, process_instagram_link (some k) net text =
        .ok "Reel ID not found") ∧
    (check_instagram_link (some text) = true → extract_reel_id text ≠ "" →
      ∀ (v : JValue) (url : String), pyExtract v = .ok (JValue.str url) →
        process_instagram_link (some k) (NetOutcome.response (some v)) text =
          .ok ("Extracted URL: " ++ url)) := by
  have hkey : ¬((!pyTruthyStr (some k)) = true) := by
    simp [pyTruthyStr, hk]
  refine ⟨?_, ?_, ?_⟩
  · intro hc net
    unfold process_instagram_link
    rw [if_neg hkey, if_pos (by simp [hc])]
  · intro hc he net
    unfold process_instagram_link
    rw [if_neg hkey, if_neg (by simp [hc]), if_pos he]
  · intro hc he v url hv
    unfold process_instagram_link
    rw [if_neg hkey, if_neg (by simp [hc]), if_neg he]
    simp only [fetch_reel_data, hv]
    rfl

theorem pipeline_rule_order_witness :
    process_instagram_link (some "key")
      (NetOutcome.response (some (JValue.arr [JValue.obj [("urls",
        JValue.arr [JValue.obj [("url", JValue.str "http://cdn/video.mp4")]])]])))
      "https://instagram.com/reel/Abc123-Def/" =
      .ok ("Extracted URL: " ++ "http://cdn/video.mp4") :=
  (pipeline_rule_order "key" "https://instagram.com/reel/Abc123-Def/"
      (by decide)).2.2
    (by decide) (by decide) _ "http://cdn/video.mp4" rfl

/-- C1 (counterexample): with the key configured, a reel-link message and a
resolver body that is not valid JSON, the reply is not the bare fixed
string "Error decoding API response" — the code routes the fetch-level
error message through the success formatting, prefixing it with
"Extracted URL: ". -/
theorem decode_error_reply_counterexample :
    process_instagram_link (some "key") (NetOutcome.response none)
      "https://instagram.com/reel/Abc/" ≠
      Except.ok "Error decoding API response" := by
  have hv : process_instagram_link (some "key") (NetOutcome.response none)
      "https://instagram.com/reel/Abc/" =
      .ok "Extracted URL: Error decoding API response" := rfl
  rw [hv]
  intro h
  injection h with h3
  exact absurd h3 (by decide)

/-- C1 (amended): for every resolver response body that is not valid JSON,
the reply to a reel-link message with a configured key is exactly
"Extracted URL: Error decoding API response" — the fixed decode-error
string of `fetch_reel_data` wrapped by the success formatting of the pipeline —
and the pipeline does not raise. -/
theorem decode_error_reply (k text : String) (hk : k ≠ "")
    (h1 : check_instagram_link (some text) = true)
    (h2 : extract_reel_id text ≠ "") :
    process_instagram_link (some k) (NetOutcome.response none) text =
      .ok "Extracted URL: Error decoding API response" := by
  unfold process_instagram_link
  rw [if_neg (by simp [pyTruthyStr, hk]), if_neg (by simp [h1]), if_neg h2]
  rfl

theorem decode_error_reply_witness :
    process_instagram_link (some "key") (NetOutcome.response none)
      "https://instagram.com/reel/Abc/" =
      .ok "Extracted URL: Error decoding API response" :=
  decode_error_reply "key" "https://instagram.com/reel/Abc/"
    (by decide) (by decide) (by decide)

/-- C6 (counterexample): a body that parses as JSON but lacks the expected
shape (here the empty top-level array) does not produce the bare fixed
string "Error processing API response": the pipeline prefixes the fetch
error message with "Extracted URL: ". -/
theorem shape_error_reply_counterexample :
    process_instagram_link (some "key")
      (NetOutcome.response (some (JValue.arr [])))
      "https://instagram.com/reel/Abc/" ≠
      Except.ok "Error processing API response" := by
  have hv : process_instagram_link (some "key")
      (NetOutcome.response (some (JValue.arr [])))
      "https://instagram.com/reel/Abc/" =
      .ok "Extracted URL: Error processing API response" := rfl
  rw [hv]
  intro h
  injection h with h3
  exact absurd h3 (by decide)

/-- C6 (amended): for every decoded body on which the access chain
`[0]["urls"][0]["url"]` raises — `KeyError` (handled by the dedicated
handler, the missing-field case) as well as `IndexError`/`TypeError` or any
other processing exception (handled by the catch-all handler) — the reply
is exactly "Extracted URL: Error processing API response": both handlers
return the same fixed string, which the pipeline wraps in its success
formatting. -/
theorem shape_error_reply (k text : String) (v : JValue) (e : PyErr)
    (hk : k ≠ "")
    (h1 : check_instagram_link (some text) = true)
    (h2 : extract_reel_id text ≠ "")
    (hv : pyExtract v = .error e) :
    process_instagram_link (some k) (NetOutcome.response (some v)) text =
      .ok "Extracted URL: Error processing API response" := by
  unfold process_instagram_link
  rw [if_neg (by simp [pyTruthyStr, hk]), if_neg (by simp [h1]), if_neg h2]
  simp only [fetch_reel_data, hv]
  cases e <;> rfl

theorem shape_error_reply_witness :
    process_instagram_link (some "key")
      (NetOutcome.response (some (JValue.arr [])))
      "https://instagram.com/reel/Abc/" =
      .ok "Extracted URL: Error processing API response" :=
  shape_error_reply "key" "https://instagram.com/reel/Abc/"
    (JValue.arr []) PyErr.index (by decide) (by decide) (by decide) rfl

/-- C10: `INSTAGRAM_RE` has no boundary check before the host, so a URL
whose longer hostname merely ends in the Instagram host also matches:
"https://notinstagram.com/x" contains the substring "instagram.com/x" and
the matcher returns true. -/
theorem host_substring_overmatch :
    check_instagram_link (some "https://notinstagram.com/x") = true := by
  decide
